import Mathlib

/-!
# Verification of the shade-oracle price-oracle contract

A shallow embedding, in Lean 4, of the NEAR price-oracle contract
(`src/lib.rs`, `src/collateral.rs`, `src/utils.rs`) together with proofs
about the embedded definitions.  Rust `u8`/`u64`/`u128` values are
modelled as `Nat` with explicit `% 2^w` reductions exactly where the
source truncates or where overflow is checked; fallible Rust code
(`panic!`, `unwrap`, `require!`, `assert!`) is modelled with
`Except String`; byte strings are `List Nat` (each element a byte) and
text is `List Char`.
-/

set_option maxRecDepth 100000

deriving instance DecidableEq for Except

namespace PriceOracle

/-! ## Bytes and hex encoding (the Rust `hex` crate) -/

/-- Value of a single hex digit (the `hex` crate accepts both cases). -/
def hexDigitVal (c : Char) : Option Nat :=
  if '0' ≤ c ∧ c ≤ '9' then some (c.toNat - 48)
  else if 'a' ≤ c ∧ c ≤ 'f' then some (c.toNat - 87)
  else if 'A' ≤ c ∧ c ≤ 'F' then some (c.toNat - 55)
  else none

/-- `hex::decode`: even-length hex text to bytes, `none` on any
non-hex character or odd length. -/
def decodeHex : List Char → Option (List Nat)
  | [] => some []
  | [_] => none
  | c1 :: c2 :: rest => do
    let h ← hexDigitVal c1
    let l ← hexDigitVal c2
    let tail ← decodeHex rest
    pure ((h * 16 + l) :: tail)

/-- Lowercase hex digit of a value `< 16`. -/
def hexDigitChar (n : Nat) : Char :=
  if n < 10 then Char.ofNat (48 + n) else Char.ofNat (87 + n)

/-- `hex::encode`: bytes to lowercase hex text. -/
def encodeHex (bs : List Nat) : List Char :=
  (bs.map (fun b => [hexDigitChar (b / 16), hexDigitChar (b % 16)])).flatten

/-! ## SHA-2 (the Rust `sha2` crate): a generic 8-word core
instantiated at SHA-256 and SHA-384. -/

/-- Big-endian word value of a byte list. -/
def bytesToWordBE (bs : List Nat) : Nat :=
  bs.foldl (fun acc b => acc * 256 + b) 0

/-- `n` big-endian bytes of `x`. -/
def natToBytesBE : Nat → Nat → List Nat
  | 0, _ => []
  | k + 1, x => natToBytesBE k (x / 256) ++ [x % 256]

/-- Split a list into consecutive chunks of size `n` (fuelled). -/
def chunksGo (n : Nat) : Nat → List α → List (List α)
  | _, [] => []
  | 0, _ => []
  | f + 1, l => l.take n :: chunksGo n f (l.drop n)

def chunks (n : Nat) (l : List α) : List (List α) :=
  chunksGo n l.length l

/-- Parameters of one member of the SHA-2 family. -/
structure ShaCfg where
  wordBits : Nat
  rounds : Nat
  K : List Nat
  iv : List Nat
  bs0 : Nat × Nat × Nat
  bs1 : Nat × Nat × Nat
  ss0 : Nat × Nat × Nat
  ss1 : Nat × Nat × Nat

namespace ShaCfg

def wordMod (c : ShaCfg) : Nat := 2 ^ c.wordBits
def wordBytes (c : ShaCfg) : Nat := c.wordBits / 8
def blockBytes (c : ShaCfg) : Nat := 16 * c.wordBytes

def rotr (c : ShaCfg) (x n : Nat) : Nat :=
  ((x >>> n) ||| (x <<< (c.wordBits - n))) % c.wordMod

def bigSigma0 (c : ShaCfg) (x : Nat) : Nat :=
  c.rotr x c.bs0.1 ^^^ c.rotr x c.bs0.2.1 ^^^ c.rotr x c.bs0.2.2

def bigSigma1 (c : ShaCfg) (x : Nat) : Nat :=
  c.rotr x c.bs1.1 ^^^ c.rotr x c.bs1.2.1 ^^^ c.rotr x c.bs1.2.2

def smallSigma0 (c : ShaCfg) (x : Nat) : Nat :=
  c.rotr x c.ss0.1 ^^^ c.rotr x c.ss0.2.1 ^^^ (x >>> c.ss0.2.2)

def smallSigma1 (c : ShaCfg) (x : Nat) : Nat :=
  c.rotr x c.ss1.1 ^^^ c.rotr x c.ss1.2.1 ^^^ (x >>> c.ss1.2.2)

/-- Pad a message: `0x80`, zeros, then the bit length in
`2 * wordBytes` big-endian bytes. -/
def pad (c : ShaCfg) (msg : List Nat) : List Nat :=
  let L := msg.length
  let lenB := 2 * c.wordBytes
  let zeros := (c.blockBytes - (L + 1 + lenB) % c.blockBytes) % c.blockBytes
  msg ++ 0x80 :: List.replicate zeros 0 ++ natToBytesBE lenB (8 * L)

/-- Message-schedule extension, most recent word first. -/
def schedExt (c : ShaCfg) : Nat → List Nat → List Nat
  | 0, r => r
  | n + 1, r =>
    schedExt c n
      (((c.smallSigma1 (r.getD 1 0) + r.getD 6 0 +
          c.smallSigma0 (r.getD 14 0) + r.getD 15 0) % c.wordMod) :: r)

def schedule (c : ShaCfg) (block16 : List Nat) : List Nat :=
  (c.schedExt (c.rounds - 16) block16.reverse).reverse

/-- One compression round on the 8-word working state. -/
def roundFn (c : ShaCfg) (s : List Nat) (k w : Nat) : List Nat :=
  match s with
  | [a, b, cc, d, e, f, g, h] =>
    let ch := (e &&& f) ^^^ ((e ^^^ (c.wordMod - 1)) &&& g)
    let maj := (a &&& b) ^^^ (a &&& cc) ^^^ (b &&& cc)
    let t1 := (h + c.bigSigma1 e + ch + k + w) % c.wordMod
    let t2 := (c.bigSigma0 a + maj) % c.wordMod
    [(t1 + t2) % c.wordMod, a, b, cc, (d + t1) % c.wordMod, e, f, g]
  | _ => s

/-- Compress one block into the running hash state. -/
def compressBlock (c : ShaCfg) (h : List Nat) (block : List Nat) : List Nat :=
  let ws := c.schedule ((chunks c.wordBytes block).map bytesToWordBE)
  let s := (c.K.zip ws).foldl (fun s kw => c.roundFn s kw.1 kw.2) h
  (h.zip s).map (fun p => (p.1 + p.2) % c.wordMod)

/-- Full digest (all 8 state words, big-endian bytes). -/
def digest (c : ShaCfg) (msg : List Nat) : List Nat :=
  ((chunks c.blockBytes (c.pad msg)).foldl (c.compressBlock) c.iv).map
    (natToBytesBE c.wordBytes) |>.flatten

end ShaCfg

def sha256Cfg : ShaCfg where
  wordBits := 32
  rounds := 64
  K := [
    1116352408, 1899447441, 3049323471, 3921009573,
    961987163, 1508970993, 2453635748, 2870763221,
    3624381080, 310598401, 607225278, 1426881987,
    1925078388, 2162078206, 2614888103, 3248222580,
    3835390401, 4022224774, 264347078, 604807628,
    770255983, 1249150122, 1555081692, 1996064986,
    2554220882, 2821834349, 2952996808, 3210313671,
    3336571891, 3584528711, 113926993, 338241895,
    666307205, 773529912, 1294757372, 1396182291,
    1695183700, 1986661051, 2177026350, 2456956037,
    2730485921, 2820302411, 3259730800, 3345764771,
    3516065817, 3600352804, 4094571909, 275423344,
    430227734, 506948616, 659060556, 883997877,
    958139571, 1322822218, 1537002063, 1747873779,
    1955562222, 2024104815, 2227730452, 2361852424,
    2428436474, 2756734187, 3204031479, 3329325298]
  iv := [
    1779033703, 3144134277, 1013904242, 2773480762,
    1359893119, 2600822924, 528734635, 1541459225]
  bs0 := (2, 13, 22)
  bs1 := (6, 11, 25)
  ss0 := (7, 18, 3)
  ss1 := (17, 19, 10)

def sha512K : List Nat := [
    4794697086780616226, 8158064640168781261, 13096744586834688815,
    16840607885511220156, 4131703408338449720, 6480981068601479193,
    10538285296894168987, 12329834152419229976, 15566598209576043074,
    1334009975649890238, 2608012711638119052, 6128411473006802146,
    8268148722764581231, 9286055187155687089, 11230858885718282805,
    13951009754708518548, 16472876342353939154, 17275323862435702243,
    1135362057144423861, 2597628984639134821, 3308224258029322869,
    5365058923640841347, 6679025012923562964, 8573033837759648693,
    10970295158949994411, 12119686244451234320, 12683024718118986047,
    13788192230050041572, 14330467153632333762, 15395433587784984357,
    489312712824947311, 1452737877330783856, 2861767655752347644,
    3322285676063803686, 5560940570517711597, 5996557281743188959,
    7280758554555802590, 8532644243296465576, 9350256976987008742,
    10552545826968843579, 11727347734174303076, 12113106623233404929,
    14000437183269869457, 14369950271660146224, 15101387698204529176,
    15463397548674623760, 17586052441742319658, 1182934255886127544,
    1847814050463011016, 2177327727835720531, 2830643537854262169,
    3796741975233480872, 4115178125766777443, 5681478168544905931,
    6601373596472566643, 7507060721942968483, 8399075790359081724,
    8693463985226723168, 9568029438360202098, 10144078919501101548,
    10430055236837252648, 11840083180663258601, 13761210420658862357,
    14299343276471374635, 14566680578165727644, 15097957966210449927,
    16922976911328602910, 17689382322260857208, 500013540394364858,
    748580250866718886, 1242879168328830382, 1977374033974150939,
    2944078676154940804, 3659926193048069267, 4368137639120453308,
    4836135668995329356, 5532061633213252278, 6448918945643986474,
    6902733635092675308, 7801388544844847127]

def sha384Cfg : ShaCfg where
  wordBits := 64
  rounds := 80
  K := sha512K
  iv := [
    14680500436340154072, 7105036623409894663, 10473403895298186519,
    1526699215303891257, 7436329637833083697, 10282925794625328401,
    15784041429090275239, 5167115440072839076]
  bs0 := (28, 34, 39)
  bs1 := (14, 18, 41)
  ss0 := (1, 8, 7)
  ss1 := (19, 61, 6)

/-- `Sha256` digest of a byte string: 32 bytes. -/
def sha256 (msg : List Nat) : List Nat := sha256Cfg.digest msg

/-- `Sha384` digest of a byte string: the first 48 bytes of the
SHA-512-with-384-IV state. -/
def sha384 (msg : List Nat) : List Nat := (sha384Cfg.digest msg).take 48

/-! ## Text utilities used by the manifest parser

Rust `&str` values are modelled as `List Char`; the byte strings fed to
the hashers are the UTF-8 encodings. -/

/-- UTF-8 encoding of one scalar value (continuation bytes written as
`128 + base-64 digit`, which coincides with the usual mask-and-or form
on the digit ranges involved). -/
def utf8Char (c : Char) : List Nat :=
  let n := c.toNat
  if n < 128 then [n]
  else if n < 2048 then [192 + n / 64, 128 + n % 64]
  else if n < 65536 then [224 + n / 4096, 128 + n / 64 % 64, 128 + n % 64]
  else [240 + n / 262144, 128 + n / 4096 % 64, 128 + n / 64 % 64, 128 + n % 64]

/-- UTF-8 bytes of a text. -/
def strBytes (s : List Char) : List Nat := (s.map utf8Char).flatten

/-- Rust `char::is_whitespace` (the Unicode `White_Space` property). -/
def rustIsWhitespace (c : Char) : Bool :=
  let n := c.toNat
  (0x09 ≤ n && n ≤ 0x0D) || n == 0x20 || n == 0x85 || n == 0xA0 ||
    n == 0x1680 || (0x2000 ≤ n && n ≤ 0x200A) || n == 0x2028 ||
    n == 0x2029 || n == 0x202F || n == 0x205F || n == 0x3000

/-- Worker loop of `splitOnce`: scan for the leftmost occurrence of
`pat`, accumulating the prefix in reverse. -/
def splitOnceGo (pat : List Char) : List Char → List Char → Option (List Char × List Char)
  | acc, [] => if pat.isPrefixOf ([] : List Char) then some (acc.reverse, []) else none
  | acc, c :: tl =>
    if pat.isPrefixOf (c :: tl) then some (acc.reverse, (c :: tl).drop pat.length)
    else splitOnceGo pat (c :: acc) tl

/-- Rust `str::split_once`: split at the leftmost occurrence of the
pattern, `none` when the pattern does not occur. -/
def splitOnce (s pat : List Char) : Option (List Char × List Char) :=
  splitOnceGo pat [] s

/-- Worker loop of `countOccs`, fuelled by the text length: count
non-overlapping leftmost occurrences of a (nonempty) pattern. -/
def countOccsGo (pat : List Char) : Nat → List Char → Nat
  | 0, _ => 0
  | f + 1, s =>
    if pat ≠ [] ∧ pat.isPrefixOf s then countOccsGo pat f (s.drop pat.length) + 1
    else
      match s with
      | [] => 0
      | _ :: tl => countOccsGo pat f tl

/-- Rust `str::matches(pat).count()` for a nonempty pattern. -/
def countOccs (s pat : List Char) : Nat := countOccsGo pat s.length s

/-- Rust `str::parse::<u32>`: optional leading `+`, then one or more
decimal digits, value below `2^32`. -/
def parseU32 (s : List Char) : Option Nat :=
  let ds := match s with
    | '+' :: tl => tl
    | _ => s
  if ds = [] then none
  else if ds.all (fun c => '0' ≤ c && c ≤ '9') then
    let v := ds.foldl (fun acc c => acc * 10 + (c.toNat - 48)) 0
    if v < 2 ^ 32 then some v else none
  else none

/-- Lift a Rust `Option::unwrap` / `expect` to the error monad. -/
def optExcept (o : Option α) (msg : String) : Except String α :=
  match o with
  | some a => Except.ok a
  | none => Except.error msg

/-! ## `src/collateral.rs` — measurement replay and manifest parsing -/

/-- One entry of the manifest's `event_log` JSON array, as accessed by
`collateral.rs`: each field is `none` when the JSON object lacks the
field or holds it at the wrong type (so that the corresponding
`as_str()` / `as_u64()` returns `None` and the `unwrap` panics). -/
structure LogEvent where
  event : Option (List Char)
  digest : Option (List Char)
  imr : Option Nat
  deriving DecidableEq

/-- The parsed shape of the `tcb_info` JSON document that
`verify_codehash` reads: an `event_log` array and the `app_compose`
manifest text. -/
structure TcbInfo where
  event_log : List LogEvent
  app_compose : List Char
  deriving DecidableEq

/-- The 48 zero bytes a measurement register starts from. -/
def zeros48 : List Nat := List.replicate 48 0

/-- Iteration of `replay_rtmr`'s lazy `filter` + `for` loop: events are
examined in log order; an event's `imr` is truncated with `as u8`
(hence reduced `% 256`) before being compared with the target, and the
digest of a matching event is hex-decoded (both `unwrap`s are fatal). -/
def replayGo (target : Nat) : List Nat → List LogEvent → Except String (List Nat)
  | d, [] => Except.ok d
  | d, e :: rest => do
    let i ← optExcept e.imr "imr is not a u64"
    if i % 256 = target then do
      let ds ← optExcept e.digest "digest is not a string"
      let bytes ← optExcept (decodeHex ds) "digest is not valid hex"
      replayGo target (sha384 (d ++ bytes)) rest
    else
      replayGo target d rest

/-- `replay_rtmr` (collateral.rs:95-117): fold the digests of the
events selected for the target register into a running SHA-384 extend,
starting from 48 zero bytes, and return the lowercase hex encoding. -/
def replay_rtmr (event_log : List LogEvent) (imr : Nat) : Except String (List Char) :=
  (replayGo imr zeros48 event_log).map encodeHex

/-- `replay_app_compose` (collateral.rs:119-135): SHA-384 of the event
prefix `01 00 00 08`, a colon, the event name `compose-hash`, a colon,
and the SHA-256 of the manifest text; lowercase hex. -/
def replay_app_compose (app_compose : List Char) : List Char :=
  encodeHex (sha384 ([0x01, 0x00, 0x00, 0x08] ++ strBytes [':'] ++
    strBytes "compose-hash".toList ++ strBytes [':'] ++ sha256 (strBytes app_compose)))

/-- The lazy `iter().filter(event == "compose-hash").next()` of
`verify_codehash`: events are examined in order, each `event` field
`unwrap`ped, until the first `compose-hash` event; no event is fatal
only if it appears after the first match. -/
def findComposeHash : List LogEvent → Except String LogEvent
  | [] => Except.error "no compose-hash event"
  | e :: rest => do
    let nm ← optExcept e.event "event is not a string"
    if nm = "compose-hash".toList then Except.ok e else findComposeHash rest

/-- One marker extraction of `verify_codehash`: after the marker, after
the next `\n`-escaped `image:` line start, within that line, the 64
characters after `@sha256:` (`split_at(64)` panics when fewer than 64
characters remain). -/
def extractImageDigest (stripped marker : List Char) : Except String (List Char) := do
  let r1 ← optExcept (splitOnce stripped marker) "missing marker"
  let r2 ← optExcept (splitOnce r1.2 "\\nimage:".toList) "missing image line"
  let l3 ← optExcept (splitOnce r2.2 "\\n".toList) "missing line end"
  let r4 ← optExcept (splitOnce l3.1 "@sha256:".toList) "missing @sha256:"
  if r4.2.length < 64 then Except.error "split_at out of bounds"
  else Except.ok (r4.2.take 64)

/-- `verify_codehash` (collateral.rs:35-91): check the replayed compose
hash against the logged one and the replayed register 3 against the
caller-supplied value, then extract the two image digests from the
whitespace-stripped manifest text and require exactly two
`\n`-escaped `image:` declarations in the whole document. -/
def verify_codehash (tcb_info : TcbInfo) (rtmr3 : List Char) :
    Except String (List Char × List Char) := do
  let composeEvent ← findComposeHash tcb_info.event_log
  let expected_compose_hash ← optExcept composeEvent.digest "digest is not a string"
  let replayed_rtmr3 ← replay_rtmr tcb_info.event_log 3
  let replayed_compose_hash := replay_app_compose tcb_info.app_compose
  if replayed_compose_hash ≠ expected_compose_hash then
    Except.error "compose hash mismatch"
  else if replayed_rtmr3 ≠ rtmr3 then
    Except.error "rtmr3 mismatch"
  else do
    let stripped := tcb_info.app_compose.filter (fun c => ¬ rustIsWhitespace c)
    let shade_agent_api_image ← extractImageDigest stripped "#shade-agent-api-image".toList
    let shade_agent_app_image ← extractImageDigest stripped "#shade-agent-app-image".toList
    if countOccs stripped "\\nimage:".toList ≠ 2 then
      Except.error "app_compose should contain exactly two image declarations"
    else
      Except.ok (shade_agent_api_image, shade_agent_app_image)

/-! ## `src/utils.rs` — the fixed-point `Price` and its ordering -/

/-- `Price` (utils.rs): `multiplier × 10^-decimals`.  `u128`/`u8`
modelled as `Nat`; well-formed values satisfy `multiplier < 2^128`
(and `decimals < 256`), stated as hypotheses where they matter. -/
structure Price where
  multiplier : Nat
  decimals : Nat
  deriving DecidableEq

def MAX_U128_DECIMALS : Nat := 38
def MAX_VALID_DECIMALS : Nat := 77

/-- `Price::assert_valid` succeeds exactly on this predicate. -/
def Price.isValid (p : Price) : Prop := p.decimals ≤ MAX_VALID_DECIMALS

instance (p : Price) : Decidable p.isValid := by
  unfold Price.isValid; infer_instance

/-- Rust `Ord::cmp` on `u128`. -/
def ordCompare (m n : Nat) : Ordering :=
  if m < n then Ordering.lt else if n < m then Ordering.gt else Ordering.eq

/-- The `else` path of `Price::partial_cmp` (utils.rs:37-56), taken
when `self.decimals >= other.decimals`: scale the other multiplier by
`10^diff` with a `checked_mul` (overflow means `Less`), unless the
exponent exceeds 38 (also `Less`). -/
def cmpGe (a b : Price) : Ordering :=
  let decimals_diff := a.decimals - b.decimals
  if decimals_diff > MAX_U128_DECIMALS then Ordering.lt
  else if b.multiplier * 10 ^ decimals_diff < 2 ^ 128 then
    ordCompare a.multiplier (b.multiplier * 10 ^ decimals_diff)
  else Ordering.lt

/-- `Price::partial_cmp`: when `self.decimals < other.decimals`, the
result is the reverse of the comparison the other way round (which then
takes the `else` path); the function returns `Some` on every input. -/
def partialCmp (a b : Price) : Option Ordering :=
  if a.decimals < b.decimals then some (cmpGe b a).swap else some (cmpGe a b)

/-- `Price::cmp` = `partial_cmp(...).unwrap()` (total). -/
def priceCmp (a b : Price) : Ordering :=
  if a.decimals < b.decimals then (cmpGe b a).swap else cmpGe a b

/-- `Price::eq` is defined through the comparison, not field equality. -/
def priceEq (a b : Price) : Prop := priceCmp a b = Ordering.eq

/-! ## `src/lib.rs` — contract state and entry points

The modules `asset.rs`, `ema.rs`, `oracle.rs` of this repository are
not under `src/`; their data shapes and the operations `lib.rs` calls
on them are modelled from the spec (§3, §4.6) and marked as such. -/

/-- Account identifiers; textual, compared exactly. -/
abbrev AccountId := List Char

/-- Asset identifiers. -/
abbrev AssetId := List Char

/-- Modelled from the spec: `Report` (§3, `asset.rs` not under src) —
`{oracle_id, timestamp (nanoseconds), price}`. -/
structure Report where
  oracle_id : AccountId
  timestamp : Nat
  price : Price
  deriving DecidableEq

/-- Modelled from the spec: `Ema` (§3, `ema.rs` not under src) —
`{period_sec, timestamp of last update, optional price}`. -/
structure Ema where
  period_sec : Nat
  timestamp : Nat
  price : Option Price
  deriving DecidableEq

/-- Modelled from the spec: `Asset` (§3, `asset.rs` not under src) —
an ordered collection of reports plus one `Ema` per configured
period. -/
structure Asset where
  reports : List Report
  emas : List Ema
  deriving DecidableEq

/-- Modelled from the spec: `Oracle` (§3, `oracle.rs` not under src) —
per-reporter stats; `codehash`/`checksum` are `None` until a
successful attestation. -/
structure Oracle where
  last_report : Nat
  price_reports : Nat
  last_near_claim : Nat
  codehash : Option (List Char)
  checksum : Option (List Char)
  deriving DecidableEq

/-- Modelled from the spec: `Oracle::new` starts with zeroed stats and
no codehash. -/
def Oracle.new : Oracle :=
  { last_report := 0, price_reports := 0, last_near_claim := 0,
    codehash := none, checksum := none }

/-- `Worker` (lib.rs:47-50): the per-account attested identity record. -/
structure Worker where
  checksum : List Char
  codehash : List Char
  deriving DecidableEq

/-- Association-list lookup, modelling `UnorderedMap::get` /
`IterableMap::get`. -/
def lookupA {α : Type} : List (List Char × α) → List Char → Option α
  | [], _ => none
  | (k, v) :: rest, key => if k = key then some v else lookupA rest key

/-- Association-list insert-or-update, modelling
`UnorderedMap::insert`: an existing key is overwritten in place, a new
key appended. -/
def insertA {α : Type} : List (List Char × α) → List Char → α → List (List Char × α)
  | [], key, v => [(key, v)]
  | (k, w) :: rest, key, v =>
    if k = key then (k, v) :: rest else (k, w) :: insertA rest key v

/-- Modelled from the spec: `Asset::remove_report` (§3: at most one
report per reporter; §4.6: "remove any prior report from the same
reporter"). -/
def Asset.remove_report (a : Asset) (oracle_id : AccountId) : Asset :=
  { a with reports := a.reports.filter (fun r => r.oracle_id ≠ oracle_id) }

/-- Modelled from the spec: `Asset::add_report` appends the new report
to the ordered collection. -/
def Asset.add_report (a : Asset) (r : Report) : Asset :=
  { a with reports := a.reports ++ [r] }

/-- Insertion step for sorting reports by price with the contract's
comparison. -/
def insertSorted (r : Report) : List Report → List Report
  | [] => [r]
  | x :: tl =>
    if priceCmp r.price x.price = Ordering.gt then x :: insertSorted r tl
    else r :: x :: tl

/-- Reports sorted by price (stable insertion sort under `priceCmp`). -/
def sortByPrice (l : List Report) : List Report := l.foldr insertSorted []

/-- Modelled from the spec: `Asset::median_price` (§4.6, `asset.rs` not
under src) — keep only reports with `timestamp ≥ timestamp_cut`,
require at least `min_num` of them, and return the middle element (the
upper middle for an even count — the spec leaves the tie-break open) of
the price-sorted qualifying reports. -/
def Asset.median_price (a : Asset) (timestamp_cut : Nat) (min_num : Nat) : Option Price :=
  let recent := a.reports.filter (fun r => timestamp_cut ≤ r.timestamp)
  if recent.length < min_num then none
  else ((sortByPrice recent).get? (recent.length / 2)).map (fun r => r.price)

/-- `QuoteCollateralV3` as built by `get_collateral`
(collateral.rs:6-33), with the JSON document already deserialized. -/
structure QuoteCollateralV3 where
  tcb_info_issuer_chain : List Char
  tcb_info : List Char
  tcb_info_signature : List Nat
  qe_identity_issuer_chain : List Char
  qe_identity : List Char
  qe_identity_signature : List Nat
  deriving DecidableEq

/-- The TDX v1.0 report body fields `register_agent` reads.  The
`report_data` text stands for
`String::from_utf8_lossy(&report.report_data)`. -/
structure TD10ReportBody where
  report_data : List Char
  rt_mr3 : List Nat
  deriving DecidableEq

/-- The architecture-specific report variant returned by
`dcap_qvl::verify`; only the TDX v1.0 variant is accepted. -/
inductive QvReport where
  | td10 (body : TD10ReportBody)
  | other
  deriving DecidableEq

/-- `as_td10`: the TDX v1.0 body, or `None` for any other variant. -/
def QvReport.as_td10 : QvReport → Option TD10ReportBody
  | QvReport.td10 b => some b
  | QvReport.other => none

/-- Result of `dcap_qvl::verify::verify`. -/
structure QvResult where
  report : QvReport
  deriving DecidableEq

/-- The blockchain environment of one call: block time, caller and
balances (`near_sdk::env`), together with the two external functions
the contract calls and this embedding leaves abstract — the `dcap_qvl`
quote verifier, and `Ema::recompute`, whose exact decay formula the
spec deliberately leaves open (§9, `ema.rs` not under src). -/
structure Env where
  block_timestamp : Nat
  predecessor_account_id : AccountId
  account_balance : Nat
  account_locked_balance : Nat
  storage_byte_cost : Nat
  storage_usage : Nat
  recompute : Ema → Price → Nat → Ema
  verify : List Nat → QuoteCollateralV3 → Nat → Option QvResult

/-- `Contract` (lib.rs:52-67): the persisted state. -/
structure Contract where
  oracles : List (AccountId × Oracle)
  assets : List (AssetId × Asset)
  recency_duration_sec : Nat
  owner_id : AccountId
  near_claim_amount : Nat
  approved_codehashes : List (List Char)
  worker_by_account_id : List (AccountId × Worker)
  deriving DecidableEq

def internal_get_oracle (st : Contract) (account_id : AccountId) : Option Oracle :=
  lookupA st.oracles account_id

def internal_set_oracle (st : Contract) (account_id : AccountId) (o : Oracle) : Contract :=
  { st with oracles := insertA st.oracles account_id o }

def internal_get_asset (st : Contract) (asset_id : AssetId) : Option Asset :=
  lookupA st.assets asset_id

def internal_set_asset (st : Contract) (asset_id : AssetId) (a : Asset) : Contract :=
  { st with assets := insertA st.assets asset_id a }

/-- `NEAR_CLAIM_DURATION` (lib.rs:32): 24h in nanoseconds. -/
def NEAR_CLAIM_DURATION : Nat := 24 * 60 * 60 * 10 ^ 9

/-- `SAFETY_MARGIN_NEAR_CLAIM` (lib.rs:34): 1 NEAR in yocto. -/
def SAFETY_MARGIN_NEAR_CLAIM : Nat := 10 ^ 24

/-- `to_nano` (utils.rs:68-70). -/
def to_nano (ts : Nat) : Nat := ts * 10 ^ 9

/-- One `(asset_id, price)` pair of a report batch. -/
structure AssetPrice where
  asset_id : AssetId
  price : Price
  deriving DecidableEq

/-- `require_approved_codehash` (lib.rs:363-369): the oracle's
`codehash` must be `Some` and a member of the approved set. -/
def require_approved_codehash (st : Contract) (oracle : Oracle) : Except String Unit := do
  let codehash ← optExcept oracle.codehash
    "Oracle must have approved codehash to report prices"
  if codehash ∈ st.approved_codehashes then Except.ok ()
  else Except.error "codehash is not approved"

/-- The reward-claim branch of `report_prices` (lib.rs:227-235): when
requested and the 24h cooldown has elapsed, compute
`account_balance + account_locked_balance - storage_byte_cost * storage_usage`
(checked `u128` arithmetic — the subtraction would panic on underflow)
and transfer the configured amount, resetting the cooldown, only when
that balance strictly exceeds amount + safety margin. -/
def claimStep (env : Env) (st : Contract) (oracle : Oracle) (oracle_id : AccountId)
    (timestamp : Nat) (claim_near : Option Bool) :
    Except String (Oracle × List (AccountId × Nat)) :=
  if claim_near.getD false then
    if oracle.last_near_claim + NEAR_CLAIM_DURATION ≤ timestamp then
      let gross := env.account_balance + env.account_locked_balance
      let cost := env.storage_byte_cost * env.storage_usage
      if gross < cost then Except.error "attempt to subtract with overflow"
      else
        let liquid_balance := gross - cost
        if liquid_balance > st.near_claim_amount + SAFETY_MARGIN_NEAR_CLAIM then
          Except.ok ({ oracle with last_near_claim := timestamp },
            [(oracle_id, st.near_claim_amount)])
        else Except.ok (oracle, [])
    else Except.ok (oracle, [])
  else Except.ok (oracle, [])

/-- The per-asset ingestion step of `report_prices` (lib.rs:242-262):
replace the reporter's previous report, and when the asset has EMA
periods, recompute every EMA from the quorum-gated median — computed
with threshold `max(1, (numOracles + 1) / 2)` — leaving the EMAs
unchanged when no median is produced. -/
def ingestPrice (recompute : Ema → Price → Nat → Ema) (recency_duration_sec : Nat)
    (numOracles : Nat) (oracle_id : AccountId) (timestamp : Nat)
    (asset : Asset) (price : Price) : Asset :=
  let asset := (asset.remove_report oracle_id).add_report
    { oracle_id := oracle_id, timestamp := timestamp, price := price }
  if asset.emas.isEmpty then asset
  else
    let timestamp_cut := timestamp - to_nano recency_duration_sec
    let min_num_recent_reports := max 1 ((numOracles + 1) / 2)
    match asset.median_price timestamp_cut min_num_recent_reports with
    | some median_price =>
      { asset with emas := asset.emas.map (fun e => recompute e median_price timestamp) }
    | none => asset

/-- The `for` loop of `report_prices` over the submitted pairs: each
price is validated (fatal), an unknown asset is logged and skipped. -/
def reportLoop (env : Env) : Contract → List AssetPrice → Except String Contract
  | st, [] => Except.ok st
  | st, p :: rest => do
    if ¬ p.price.isValid then Except.error "price is not valid"
    else
      match internal_get_asset st p.asset_id with
      | some asset =>
        let asset := ingestPrice env.recompute st.recency_duration_sec
          st.oracles.length env.predecessor_account_id env.block_timestamp asset p.price
        reportLoop env (internal_set_asset st p.asset_id asset) rest
      | none => reportLoop env st rest

/-- `report_prices` (lib.rs:214-267).  Returns the new state together
with the outgoing transfers (`Promise::transfer` is fire-and-forget);
an error models a panicking call whose state changes are all
discarded. -/
def report_prices (env : Env) (st : Contract) (prices : List AssetPrice)
    (claim_near : Option Bool) : Except String (Contract × List (AccountId × Nat)) := do
  if prices.isEmpty then Except.error "prices must not be empty"
  else do
    let oracle_id := env.predecessor_account_id
    let timestamp := env.block_timestamp
    let oracle ← optExcept (internal_get_oracle st oracle_id) "Not an oracle"
    let _ ← require_approved_codehash st oracle
    let oracle := { oracle with
      last_report := timestamp,
      price_reports := oracle.price_reports + prices.length }
    let (oracle, transfers) ← claimStep env st oracle oracle_id timestamp claim_near
    let st := internal_set_oracle st oracle_id oracle
    let st ← reportLoop env st prices
    Except.ok (st, transfers)

/-- `register_agent` (lib.rs:269-310).  The collateral argument stands
for the already-deserialized result of `get_collateral`; the quote is
hex-decoded, verified by the (abstract) `dcap_qvl` verifier at the
block time in seconds, required to be a TDX v1.0 report bound to the
caller, and its `rt_mr3` passed to `verify_codehash`; both extracted
image digests must be approved and the account must not already be an
oracle. -/
def register_agent (env : Env) (st : Contract) (quote_hex : List Char)
    (collateral : QuoteCollateralV3) (checksum : List Char) (tcb_info : TcbInfo) :
    Except String (Contract × Bool) := do
  let quote ← optExcept (decodeHex quote_hex) "invalid quote hex"
  let now := env.block_timestamp / 1000000000
  let result ← optExcept (env.verify quote collateral now) "report is not verified"
  let report ← optExcept result.report.as_td10 "report is not a TD 1.0 report"
  let report_data := report.report_data
  if env.predecessor_account_id ≠ report_data then
    Except.error "predecessor_account_id != report_data"
  else do
    let rtmr3 := encodeHex report.rt_mr3
    let images ← verify_codehash tcb_info rtmr3
    if images.1 ∉ st.approved_codehashes then Except.error "api image is not approved"
    else if images.2 ∉ st.approved_codehashes then Except.error "app image is not approved"
    else if (internal_get_oracle st env.predecessor_account_id).isSome then
      Except.error "Oracle already exists"
    else
      let oracle := { Oracle.new with codehash := some images.2, checksum := some checksum }
      Except.ok (internal_set_oracle st env.predecessor_account_id oracle, true)

/-- `get_agent` (lib.rs:312-317): look the caller-supplied account up
in the worker map, panicking when absent. -/
def get_agent (st : Contract) (account_id : AccountId) : Except String Worker :=
  optExcept (lookupA st.worker_by_account_id account_id) "no worker found"

/-- One entry of a `PriceData` answer. -/
structure AssetOptionalPrice where
  asset_id : AssetId
  price : Option Price
  deriving DecidableEq

/-- `PriceData` (lib.rs:69-76). -/
structure PriceData where
  timestamp : Nat
  recency_duration_sec : Nat
  prices : List AssetOptionalPrice
  deriving DecidableEq

/-- `get_price_data` (lib.rs:134-174): per asset, either a specific
EMA addressed as `"{asset}#{period}"` (a malformed period is fatal), or
the quorum-gated median with threshold `max(1, (oracles.len() + 1) / 2)`;
unknown assets yield an absent price. -/
def get_price_data (env : Env) (st : Contract) (asset_ids : Option (List AssetId)) :
    Except String PriceData := do
  let ids := asset_ids.getD (st.assets.map (fun p => p.1))
  let timestamp := env.block_timestamp
  let timestamp_cut := timestamp - to_nano st.recency_duration_sec
  let min_num_recent_reports := max 1 ((st.oracles.length + 1) / 2)
  let prices ← ids.mapM (fun asset_id =>
    match splitOnce asset_id ['#'] with
    | some (base, per) => do
      let period ← optExcept (parseU32 per) "Failed to parse EMA period"
      let p := (internal_get_asset st base).bind (fun a =>
        ((a.emas.find? (fun e => e.period_sec = period)).filter
          (fun e => timestamp_cut ≤ e.timestamp)).bind (fun e => e.price))
      Except.ok (AssetOptionalPrice.mk asset_id p)
    | none =>
      let p := (internal_get_asset st asset_id).bind
        (fun a => a.median_price timestamp_cut min_num_recent_reports)
      Except.ok (AssetOptionalPrice.mk asset_id p))
  Except.ok (PriceData.mk timestamp st.recency_duration_sec prices)

end PriceOracle

namespace PriceOracle

/-- Sanity check against the published SHA-256 test vector for the
empty message. -/
example :
    encodeHex (sha256 []) =
      "e3b0c44298fc1c149afbf4c8996fb92427ae41e4649b934ca495991b7852b855".toList := by
  decide

/-- Sanity check against the published SHA-384 test vector for `"abc"`. -/
example :
    encodeHex (sha384 [0x61, 0x62, 0x63]) =
      ("cb00753f45a35e8bb5a03d699ac65007272c32ab0eded1631a8b605a43ff5bed" ++
        "8086072ba1e7cc2358baeca134c825a7").toList := by
  decide

end PriceOracle

namespace PriceOracle

/-! ## Helper lemmas about the `Price` ordering -/

/-- The spec-side reference ordering: comparison of the true numeric
values `multiplier × 10^-decimals`, cross-multiplied into `Nat` (spec
§8: "consistent with true numeric value"). -/
def valueCmp (a b : Price) : Ordering :=
  ordCompare (a.multiplier * 10 ^ b.decimals) (b.multiplier * 10 ^ a.decimals)

theorem ordCompare_swap (m n : Nat) : ordCompare n m = (ordCompare m n).swap := by
  unfold ordCompare
  rcases Nat.lt_trichotomy m n with h | h | h
  · simp [h, Nat.lt_asymm h, Ordering.swap]
  · simp [h, Nat.lt_irrefl, Ordering.swap]
  · simp [h, Nat.lt_asymm h, Ordering.swap]

theorem ordCompare_mul_right (m n k : Nat) (hk : 0 < k) :
    ordCompare (m * k) (n * k) = ordCompare m n := by
  unfold ordCompare
  rcases Nat.lt_trichotomy m n with h | h | h
  · simp [h, Nat.mul_lt_mul_right hk |>.mpr h]
  · simp [h]
  · have h2 : n * k < m * k := (Nat.mul_lt_mul_right hk).mpr h
    simp [h, h2, Nat.lt_asymm h, Nat.lt_asymm h2]

theorem cmpGe_eq_valueCmp (a b : Price) (ha : a.multiplier < 2 ^ 128)
    (hge : b.decimals ≤ a.decimals) (hd : a.decimals - b.decimals ≤ 38) :
    cmpGe a b = valueCmp a b := by
  unfold cmpGe
  have hnl : ¬ a.decimals - b.decimals > MAX_U128_DECIMALS := by
    unfold MAX_U128_DECIMALS; omega
  rw [if_neg hnl]
  have hsplit : a.decimals = (a.decimals - b.decimals) + b.decimals := by omega
  by_cases hmul : b.multiplier * 10 ^ (a.decimals - b.decimals) < 2 ^ 128
  · rw [if_pos hmul]
    unfold valueCmp
    conv_rhs => rw [hsplit]
    rw [pow_add, show b.multiplier * (10 ^ (a.decimals - b.decimals) * 10 ^ b.decimals) =
      (b.multiplier * 10 ^ (a.decimals - b.decimals)) * 10 ^ b.decimals by ring]
    exact (ordCompare_mul_right _ _ _ (Nat.pos_pow_of_pos _ (by norm_num))).symm
  · rw [if_neg hmul]
    push_neg at hmul
    have hlt : a.multiplier < b.multiplier * 10 ^ (a.decimals - b.decimals) :=
      lt_of_lt_of_le ha hmul
    have hv : a.multiplier * 10 ^ b.decimals < b.multiplier * 10 ^ a.decimals := by
      conv_rhs => rw [hsplit]
      rw [pow_add, show b.multiplier * (10 ^ (a.decimals - b.decimals) * 10 ^ b.decimals) =
        (b.multiplier * 10 ^ (a.decimals - b.decimals)) * 10 ^ b.decimals by ring]
      exact (Nat.mul_lt_mul_right (Nat.pos_pow_of_pos _ (by norm_num))).mpr hlt
    unfold valueCmp ordCompare
    rw [if_pos hv]

theorem priceCmp_of_ge (a b : Price) (hge : b.decimals ≤ a.decimals) :
    priceCmp a b = cmpGe a b := by
  unfold priceCmp
  rw [if_neg (Nat.not_lt.mpr hge)]

end PriceOracle

namespace PriceOracle

/-- Worked example from the source comments (utils.rs:16-22): NEAR at
`{1000, 26}` against DAI at `{101, 20}` compares without panicking. -/
example : priceCmp ⟨1000, 26⟩ ⟨101, 20⟩ = Ordering.lt := by decide

example : priceCmp ⟨1000, 26⟩ ⟨1000, 26⟩ = Ordering.eq := by decide

/-- Two structurally different encodings of one quantity are equal. -/
example : priceCmp ⟨100, 2⟩ ⟨1000, 3⟩ = Ordering.eq := by decide

end PriceOracle

namespace PriceOracle

/-- C8: for `a.decimals ≥ b.decimals` (well-formed `u128` multipliers),
the comparison scales `b`'s multiplier by `10^(a.decimals − b.decimals)`
and compares multipliers exactly; a scaling exponent above 38, or a
scaled multiplier overflowing `u128`, makes `a` unconditionally `Less`;
`partial_cmp` always returns `Some` (so `cmp`'s `unwrap` never
panics), and swapping the arguments reverses the ordering. -/
theorem priceCmp_normalizes (a b : Price) (hge : b.decimals ≤ a.decimals)
    (ha : a.multiplier < 2 ^ 128) (hb : b.multiplier < 2 ^ 128) :
    (38 < a.decimals - b.decimals → priceCmp a b = Ordering.lt) ∧
    (a.decimals - b.decimals ≤ 38 →
      2 ^ 128 ≤ b.multiplier * 10 ^ (a.decimals - b.decimals) →
      priceCmp a b = Ordering.lt) ∧
    (a.decimals - b.decimals ≤ 38 →
      b.multiplier * 10 ^ (a.decimals - b.decimals) < 2 ^ 128 →
      priceCmp a b = ordCompare a.multiplier
        (b.multiplier * 10 ^ (a.decimals - b.decimals))) ∧
    priceCmp b a = (priceCmp a b).swap ∧
    partialCmp a b = some (priceCmp a b) ∧
    partialCmp b a = some (priceCmp b a) := by
  have hmain : priceCmp a b = cmpGe a b := priceCmp_of_ge a b hge
  refine ⟨?_, ?_, ?_, ?_, ?_, ?_⟩
  · intro h
    rw [hmain]
    unfold cmpGe MAX_U128_DECIMALS
    rw [if_pos h]
  · intro h1 h2
    rw [hmain]
    unfold cmpGe MAX_U128_DECIMALS
    rw [if_neg (by omega), if_neg (Nat.not_lt.mpr h2)]
  · intro h1 h2
    rw [hmain]
    unfold cmpGe MAX_U128_DECIMALS
    rw [if_neg (by omega), if_pos h2]
  · by_cases hlt : b.decimals < a.decimals
    · unfold priceCmp
      rw [if_pos hlt, if_neg (Nat.not_lt.mpr hge)]
    · have heq : a.decimals = b.decimals := Nat.le_antisymm (Nat.not_lt.mp hlt) hge
      rw [hmain, priceCmp_of_ge b a (le_of_eq heq)]
      unfold cmpGe MAX_U128_DECIMALS
      rw [heq, Nat.sub_self]
      simp only [pow_zero, Nat.mul_one, gt_iff_lt]
      rw [if_neg (by norm_num), if_pos ha, if_neg (by norm_num), if_pos hb]
      exact ordCompare_swap a.multiplier b.multiplier
  · unfold partialCmp priceCmp
    by_cases h : a.decimals < b.decimals <;> simp [h]
  · unfold partialCmp priceCmp
    by_cases h : b.decimals < a.decimals <;> simp [h]

/-- Witness for C8 at `a = {2000, 3}`, `b = {1, 1}`: the scaled
comparison and the unwrap-safety, evaluated concretely. -/
theorem priceCmp_normalizes_witness :
    priceCmp ⟨2000, 3⟩ ⟨1, 1⟩ = ordCompare 2000 (1 * 10 ^ 2) ∧
    partialCmp ⟨2000, 3⟩ ⟨1, 1⟩ = some (priceCmp ⟨2000, 3⟩ ⟨1, 1⟩) ∧
    priceCmp ⟨1, 1⟩ ⟨2000, 3⟩ = (priceCmp ⟨2000, 3⟩ ⟨1, 1⟩).swap := by
  have h := priceCmp_normalizes ⟨2000, 3⟩ ⟨1, 1⟩ (by decide) (by norm_num) (by norm_num)
  exact ⟨h.2.2.1 (by decide) (by norm_num), h.2.2.2.2.1, h.2.2.2.1⟩

/-- C9 counterexample: the comparison is not consistent with true
numeric value and is not a total order.  `{5, 50}` (true value
`5·10^-50 > 0`) compares `Less` than `{0, 0}` (true value `0`), and
with `{0, 25}` (also `0`) the three results `lt`, `eq`, `gt` violate
transitivity of the induced order. -/
theorem priceCmp_value_counterexample :
    priceCmp ⟨5, 50⟩ ⟨0, 0⟩ = Ordering.lt ∧
    ¬ 5 * 10 ^ 0 < 0 * 10 ^ 50 ∧
    priceCmp ⟨0, 0⟩ ⟨0, 25⟩ = Ordering.eq ∧
    priceCmp ⟨5, 50⟩ ⟨0, 25⟩ = Ordering.gt := by
  refine ⟨by decide, by simp, by decide, by decide⟩

/-- C9 (amended): whenever the two `decimals` differ by at most 38 (so
the unconditional-`Less` defence is not taken), the comparison equals
the cross-multiplied comparison of true numeric values — hence on any
set of prices with pairwise decimal distance ≤ 38 it is a total order
consistent with value, and structurally different encodings of one
quantity compare `Equal`. -/
theorem priceCmp_agrees_with_value (a b : Price)
    (ha : a.multiplier < 2 ^ 128) (hb : b.multiplier < 2 ^ 128)
    (hd1 : a.decimals - b.decimals ≤ 38) (hd2 : b.decimals - a.decimals ≤ 38) :
    priceCmp a b = valueCmp a b ∧
    (a.multiplier * 10 ^ b.decimals = b.multiplier * 10 ^ a.decimals →
      priceCmp a b = Ordering.eq) := by
  have hmain : priceCmp a b = valueCmp a b := by
    unfold priceCmp
    by_cases h : a.decimals < b.decimals
    · rw [if_pos h, cmpGe_eq_valueCmp b a hb (le_of_lt h) hd2]
      unfold valueCmp
      exact (ordCompare_swap _ _).symm
    · rw [if_neg h]
      exact cmpGe_eq_valueCmp a b ha (Nat.not_lt.mp h) hd1
  refine ⟨hmain, fun heq => ?_⟩
  rw [hmain]
  unfold valueCmp ordCompare
  simp [heq]

/-- Witness for C9's amended theorem: `{100, 2}` and `{1000, 3}` encode
the same quantity and compare `Equal`. -/
theorem priceCmp_agrees_with_value_witness :
    priceCmp ⟨100, 2⟩ ⟨1000, 3⟩ = valueCmp ⟨100, 2⟩ ⟨1000, 3⟩ ∧
    priceCmp ⟨100, 2⟩ ⟨1000, 3⟩ = Ordering.eq := by
  have h := priceCmp_agrees_with_value ⟨100, 2⟩ ⟨1000, 3⟩
    (by norm_num) (by norm_num) (by decide) (by decide)
  exact ⟨h.1, h.2 (by norm_num)⟩

end PriceOracle

namespace PriceOracle

/-! ## Helper lemmas about the measurement replay -/

theorem exceptOkBind {ε α β : Type} (a : α) (f : α → Except ε β) :
    (Except.ok a : Except ε α) >>= f = f a := rfl

theorem exceptErrBind {ε α β : Type} (e : ε) (f : α → Except ε β) :
    (Except.error e : Except ε α) >>= f = Except.error e := rfl

attribute [simp] exceptOkBind exceptErrBind

/-- An event the replay loop gets through without panicking: its `imr`
is a u64, and when its truncated `imr` matches the target its digest is
a valid hex string. -/
def eventParses (target : Nat) (e : LogEvent) : Prop :=
  ∃ i, e.imr = some i ∧
    (i % 256 = target → ∃ s bs, e.digest = some s ∧ decodeHex s = some bs)

/-- The digests, in log order and already hex-decoded, of the events
the replay loop folds for the target register: those whose `imr`
reduced `% 256` (the `as u8` cast) equals the target. -/
def matchingDigests (log : List LogEvent) (target : Nat) : List (List Nat) :=
  log.filterMap (fun e =>
    match e.imr with
    | some i => if i % 256 = target then e.digest.bind decodeHex else none
    | none => none)

/-- One extend step of a measurement register. -/
def rtmrStep (d bs : List Nat) : List Nat := sha384 (d ++ bs)

theorem replayGo_nil (target : Nat) (d : List Nat) :
    replayGo target d [] = Except.ok d := rfl

theorem replayGo_cons (target : Nat) (d : List Nat) (e : LogEvent) (rest : List LogEvent) :
    replayGo target d (e :: rest) =
      optExcept e.imr "imr is not a u64" >>= fun i =>
        if i % 256 = target then
          optExcept e.digest "digest is not a string" >>= fun ds =>
            optExcept (decodeHex ds) "digest is not valid hex" >>= fun bytes =>
              replayGo target (sha384 (d ++ bytes)) rest
        else replayGo target d rest := rfl

theorem replayGo_fold_of_parses (target : Nat) :
    ∀ (log : List LogEvent) (d : List Nat),
      (∀ e ∈ log, eventParses target e) →
      replayGo target d log =
        Except.ok (List.foldl rtmrStep d (matchingDigests log target)) := by
  intro log
  induction log with
  | nil => intro d _; simp [replayGo_nil, matchingDigests]
  | cons e rest ih =>
    intro d h
    obtain ⟨i, hi, hdig⟩ := h e (List.mem_cons_self e rest)
    have hrest : ∀ e' ∈ rest, eventParses target e' :=
      fun e' he' => h e' (List.mem_cons_of_mem _ he')
    rw [replayGo_cons, hi]
    simp only [optExcept, exceptOkBind]
    by_cases hm : i % 256 = target
    · obtain ⟨s, bs, hs, hbs⟩ := hdig hm
      rw [if_pos hm, hs]
      simp only [optExcept, exceptOkBind]
      rw [hbs]
      simp only [optExcept, exceptOkBind]
      have hmd : matchingDigests (e :: rest) target = bs :: matchingDigests rest target := by
        simp [matchingDigests, hi, hm, hs, hbs]
      rw [hmd, List.foldl_cons]
      exact ih _ hrest
    · rw [if_neg hm]
      have hmd : matchingDigests (e :: rest) target = matchingDigests rest target := by
        simp [matchingDigests, hi, hm]
      rw [hmd]
      exact ih _ hrest

theorem replayGo_isSome_iff (target : Nat) :
    ∀ (log : List LogEvent) (d : List Nat),
      ((replayGo target d log).toOption.isSome = true ↔
        ∀ e ∈ log, eventParses target e) := by
  intro log
  induction log with
  | nil => intro d; simp [replayGo_nil, Except.toOption]
  | cons e rest ih =>
    intro d
    constructor
    · intro h
      cases hi : e.imr with
      | none =>
        rw [replayGo_cons, hi] at h
        simp [optExcept, Except.toOption] at h
      | some i =>
        rw [replayGo_cons, hi] at h
        simp only [optExcept, exceptOkBind] at h
        by_cases hm : i % 256 = target
        · rw [if_pos hm] at h
          cases hs : e.digest with
          | none => rw [hs] at h; simp [optExcept, Except.toOption] at h
          | some s =>
            rw [hs] at h
            simp only [optExcept, exceptOkBind] at h
            cases hbs : decodeHex s with
            | none => rw [hbs] at h; simp [optExcept, Except.toOption] at h
            | some bs =>
              rw [hbs] at h
              simp only [optExcept, exceptOkBind] at h
              intro e' he'
              rcases List.mem_cons.mp he' with he' | he'
              · exact he' ▸ ⟨i, hi, fun _ => ⟨s, bs, hs, hbs⟩⟩
              · exact ((ih _).mp h) e' he'
        · rw [if_neg hm] at h
          intro e' he'
          rcases List.mem_cons.mp he' with he' | he'
          · exact he' ▸ ⟨i, hi, fun hc => absurd hc hm⟩
          · exact ((ih _).mp h) e' he'
    · intro h
      rw [replayGo_fold_of_parses target _ d h]
      simp [Except.toOption]

/-- Truncating every `imr` with `% 256` does not change the replay. -/
theorem replayGo_trunc (target : Nat) :
    ∀ (log : List LogEvent) (d : List Nat),
      replayGo target d log =
        replayGo target d
          (log.map (fun e => { e with imr := e.imr.map (fun i => i % 256) })) := by
  intro log
  induction log with
  | nil => intro d; rfl
  | cons e rest ih =>
    intro d
    rw [List.map_cons, replayGo_cons, replayGo_cons]
    cases hi : e.imr with
    | none =>
      dsimp only
      simp [optExcept]
    | some i =>
      dsimp only
      simp only [Option.map, optExcept, exceptOkBind]
      have hmod : i % 256 % 256 = i % 256 := by omega
      rw [hmod]
      by_cases hm : i % 256 = target
      · rw [if_pos hm, if_pos hm]
        cases hs : e.digest with
        | none => simp [optExcept]
        | some s =>
          simp only [optExcept, exceptOkBind]
          cases hbs : decodeHex s with
          | none => simp [optExcept]
          | some bs =>
            simp only [optExcept, exceptOkBind]
            exact ih _
      · rw [if_neg hm, if_neg hm]
        exact ih _

end PriceOracle

namespace PriceOracle

/-- Boolean version of `eventParses`, for concrete evaluation. -/
def eventParsesB (target : Nat) (e : LogEvent) : Bool :=
  match e.imr with
  | some i => if i % 256 = target then (e.digest.bind decodeHex).isSome else true
  | none => false

theorem eventParses_iff (target : Nat) (e : LogEvent) :
    eventParses target e ↔ eventParsesB target e = true := by
  unfold eventParses eventParsesB
  cases hi : e.imr with
  | none => simp
  | some i =>
    by_cases hm : i % 256 = target
    · cases hd : e.digest with
      | none => simp [hm, hd]
      | some s =>
        cases hb : decodeHex s with
        | none => simp [hm, hd, hb]
        | some bs => simp [hm, hd, hb]
    · simp [hm]

instance (target : Nat) (e : LogEvent) : Decidable (eventParses target e) :=
  decidable_of_iff _ (eventParses_iff target e).symm

/-- C2 counterexample: an event with the out-of-8-bit-range `imr` 259
is not a fatal parse error — the replay succeeds — and it is folded
exactly as an `imr = 3` event would be (the `as u8` cast reduces
`259 % 256 = 3`); moreover an event whose digest is not valid hex is
silently skipped, not fatal, whenever its `imr` does not match the
target. -/
theorem replay_rtmr_out_of_range_not_fatal :
    (replay_rtmr [⟨none, some ['a', 'b'], some 259⟩] 3).toOption.isSome = true ∧
    replay_rtmr [⟨none, some ['a', 'b'], some 259⟩] 3 =
      replay_rtmr [⟨none, some ['a', 'b'], some 3⟩] 3 ∧
    replay_rtmr [⟨none, some ['z', 'z'], some 0⟩] 3 =
      Except.ok (encodeHex zeros48) := by
  refine ⟨by decide, by decide, by decide⟩

/-- C2 (amended): the replay parses without a fatal error exactly when
every event's `imr` field is a u64 and every event whose `imr`
truncated to 8 bits (`as u8`, i.e. `% 256`) equals the target carries a
valid-hex digest; a u64 `imr` value outside the 8-bit range is not
fatal but is reduced `% 256` — replaying the truncated log is
identical — and a malformed digest is fatal only on truncated-matching
events (non-matching events' digests are never examined). -/
theorem replay_rtmr_parse_errors (log : List LogEvent) (target : Nat) :
    ((replay_rtmr log target).toOption.isSome = true ↔
      ∀ e ∈ log, eventParses target e) ∧
    replay_rtmr log target =
      replay_rtmr (log.map (fun e => { e with imr := e.imr.map (fun i => i % 256) }))
        target := by
  constructor
  · unfold replay_rtmr
    cases h : replayGo target zeros48 log with
    | ok d =>
      have := (replayGo_isSome_iff target log zeros48)
      rw [h] at this
      simpa [Except.toOption, Except.map] using this
    | error msg =>
      have := (replayGo_isSome_iff target log zeros48)
      rw [h] at this
      simpa [Except.toOption, Except.map] using this
  · unfold replay_rtmr
    rw [replayGo_trunc target log zeros48]

/-- C4 counterexample: for the log `[{imr: 256, digest: "ab"}]` and
target register 0, no event's `imr` equals the target (256 ≠ 0), so
the claimed fold is empty and the claim predicts the hex encoding of
48 zero bytes; the code instead truncates `256 as u8 = 0` and folds
the event. -/
theorem replay_rtmr_fold_counterexample :
    replay_rtmr [⟨none, some ['a', 'b'], some 256⟩] 0 ≠
      Except.ok (encodeHex zeros48) ∧
    replay_rtmr [⟨none, some ['a', 'b'], some 256⟩] 0 =
      Except.ok (encodeHex (sha384 (zeros48 ++ [0xab]))) := by
  refine ⟨by decide, by decide⟩

/-- C4 (amended): whenever every event's `imr` is a u64 and every
event whose `imr % 256` equals the target carries a valid-hex digest,
`replay_rtmr` returns the lowercase-hex encoding of the left fold, in
log order, of `digest ← SHA384(digest ‖ decode_hex(event.digest))`
starting from 48 zero bytes over exactly the events whose `imr`
truncated to 8 bits equals the target; with no matching events the
result is the hex encoding of 48 zero bytes; and the fold is
order-sensitive (a concrete swapped pair of distinct matching digests
changes the output). -/
theorem replay_rtmr_is_fold :
    (∀ (log : List LogEvent) (target : Nat),
      (∀ e ∈ log, eventParses target e) →
      replay_rtmr log target =
        Except.ok (encodeHex
          (List.foldl rtmrStep zeros48 (matchingDigests log target))) ∧
      (matchingDigests log target = [] →
        replay_rtmr log target = Except.ok (encodeHex zeros48))) ∧
    replay_rtmr [⟨none, some ['0', '0'], some 1⟩, ⟨none, some ['0', '1'], some 1⟩] 1 ≠
      replay_rtmr [⟨none, some ['0', '1'], some 1⟩, ⟨none, some ['0', '0'], some 1⟩] 1 := by
  constructor
  · intro log target h
    have hfold : replay_rtmr log target =
        Except.ok (encodeHex (List.foldl rtmrStep zeros48 (matchingDigests log target))) := by
      unfold replay_rtmr
      rw [replayGo_fold_of_parses target log zeros48 h]
      rfl
    refine ⟨hfold, fun hempty => ?_⟩
    rw [hfold, hempty]
    rfl
  · decide

/-- Witness for C4's amended theorem: a two-event log, one matching
event (after truncation) and one not, replayed concretely. -/
theorem replay_rtmr_is_fold_witness :
    replay_rtmr [⟨none, some ['a', 'b'], some 3⟩, ⟨none, some ['c', 'd'], some 1⟩] 3 =
      Except.ok (encodeHex
        (List.foldl rtmrStep zeros48
          (matchingDigests
            [⟨none, some ['a', 'b'], some 3⟩, ⟨none, some ['c', 'd'], some 1⟩] 3))) :=
  ((replay_rtmr_is_fold.1
    [⟨none, some ['a', 'b'], some 3⟩, ⟨none, some ['c', 'd'], some 1⟩] 3)
    (by decide)).1

end PriceOracle

namespace PriceOracle

/-- Success of one marker extraction pins down the whole `split_once`
chain and the returned 64 characters. -/
theorem extractImageDigest_spec (s m out : List Char)
    (h : extractImageDigest s m = Except.ok out) :
    ∃ r1 r2 l3 r4,
      splitOnce s m = some r1 ∧
      splitOnce r1.2 "\\nimage:".toList = some r2 ∧
      splitOnce r2.2 "\\n".toList = some l3 ∧
      splitOnce l3.1 "@sha256:".toList = some r4 ∧
      64 ≤ r4.2.length ∧ out = r4.2.take 64 := by
  unfold extractImageDigest at h
  cases h1 : splitOnce s m with
  | none => rw [h1] at h; simp [optExcept] at h
  | some r1 =>
    rw [h1] at h
    simp only [optExcept, exceptOkBind] at h
    cases h2 : splitOnce r1.2 "\\nimage:".toList with
    | none => rw [h2] at h; simp [optExcept] at h
    | some r2 =>
      rw [h2] at h
      simp only [optExcept, exceptOkBind] at h
      cases h3 : splitOnce r2.2 "\\n".toList with
      | none => rw [h3] at h; simp [optExcept] at h
      | some l3 =>
        rw [h3] at h
        simp only [optExcept, exceptOkBind] at h
        cases h4 : splitOnce l3.1 "@sha256:".toList with
        | none => rw [h4] at h; simp [optExcept] at h
        | some r4 =>
          rw [h4] at h
          simp only [optExcept, exceptOkBind] at h
          by_cases h5 : r4.2.length < 64
          · rw [if_pos h5] at h; exact absurd h (by simp)
          · rw [if_neg h5] at h
            refine ⟨r1, r2, l3, r4, rfl, h2, h3, h4, Nat.le_of_not_lt h5, ?_⟩
            injection h with h
            exact h.symm

/-- C5: `verify_codehash` succeeds only when the whitespace-stripped
manifest contains exactly two `\n`-escaped `image:` declarations and,
for each of the two markers, the marker, a following `image:` line and
an `@sha256:` separator followed by at least 64 characters all exist;
the returned pair is exactly the first 64 characters after `@sha256:`
for the api marker and for the app marker (any missing piece, or a
declaration count other than two, is a fatal error). -/
theorem verify_codehash_structure (t : TcbInfo) (rtmr3 : List Char)
    (out : List Char × List Char)
    (h : verify_codehash t rtmr3 = Except.ok out) :
    countOccs (t.app_compose.filter (fun c => ¬ rustIsWhitespace c))
      "\\nimage:".toList = 2 ∧
    (∃ r1 r2 l3 r4,
      splitOnce (t.app_compose.filter (fun c => ¬ rustIsWhitespace c))
        "#shade-agent-api-image".toList = some r1 ∧
      splitOnce r1.2 "\\nimage:".toList = some r2 ∧
      splitOnce r2.2 "\\n".toList = some l3 ∧
      splitOnce l3.1 "@sha256:".toList = some r4 ∧
      64 ≤ r4.2.length ∧ out.1 = r4.2.take 64) ∧
    (∃ r1 r2 l3 r4,
      splitOnce (t.app_compose.filter (fun c => ¬ rustIsWhitespace c))
        "#shade-agent-app-image".toList = some r1 ∧
      splitOnce r1.2 "\\nimage:".toList = some r2 ∧
      splitOnce r2.2 "\\n".toList = some l3 ∧
      splitOnce l3.1 "@sha256:".toList = some r4 ∧
      64 ≤ r4.2.length ∧ out.2 = r4.2.take 64) := by
  unfold verify_codehash at h
  cases hce : findComposeHash t.event_log with
  | error msg => rw [hce] at h; simp at h
  | ok ce =>
    rw [hce] at h
    simp only [exceptOkBind] at h
    cases hd : ce.digest with
    | none => rw [hd] at h; simp [optExcept] at h
    | some expected =>
      rw [hd] at h
      simp only [optExcept, exceptOkBind] at h
      cases hr : replay_rtmr t.event_log 3 with
      | error msg => rw [hr] at h; simp at h
      | ok rep =>
        rw [hr] at h
        simp only [exceptOkBind] at h
        by_cases hc1 : replay_app_compose t.app_compose ≠ expected
        · rw [if_pos hc1] at h; simp at h
        · rw [if_neg hc1] at h
          by_cases hc2 : rep ≠ rtmr3
          · rw [if_pos hc2] at h; simp at h
          · rw [if_neg hc2] at h
            cases hx1 : extractImageDigest
                (t.app_compose.filter (fun c => ¬ rustIsWhitespace c))
                "#shade-agent-api-image".toList with
            | error msg => rw [hx1] at h; simp at h
            | ok img1 =>
              rw [hx1] at h
              simp only [exceptOkBind] at h
              cases hx2 : extractImageDigest
                  (t.app_compose.filter (fun c => ¬ rustIsWhitespace c))
                  "#shade-agent-app-image".toList with
              | error msg => rw [hx2] at h; simp at h
              | ok img2 =>
                rw [hx2] at h
                simp only [exceptOkBind] at h
                by_cases hn : countOccs
                    (t.app_compose.filter (fun c => ¬ rustIsWhitespace c))
                    "\\nimage:".toList ≠ 2
                · rw [if_pos hn] at h; simp at h
                · rw [if_neg hn] at h
                  injection h with h
                  subst h
                  refine ⟨Decidable.not_not.mp hn, ?_, ?_⟩
                  · exact extractImageDigest_spec _ _ _ hx1
                  · exact extractImageDigest_spec _ _ _ hx2

end PriceOracle

namespace PriceOracle

/-! ## A concrete well-formed manifest, used to exercise the success
paths of `verify_codehash` and `register_agent`. -/

/-- A 64-character api-image digest placeholder. -/
def h64a : List Char := List.replicate 64 'a'

/-- A 64-character app-image digest placeholder. -/
def h64b : List Char := List.replicate 64 'b'

/-- A minimal manifest text: both markers, each followed by an
`\n`-escaped `image:` line with an `@sha256:` digest, and exactly two
`image:` declarations. -/
def witManifest : List Char :=
  "#shade-agent-api-image\\nimage:x@sha256:".toList ++ h64a ++
    "\\n#shade-agent-app-image\\nimage:y@sha256:".toList ++ h64b ++ "\\n".toList

/-- An event log whose only event is the manifest's `compose-hash`
event, recorded in register 3 with the correctly replayed digest. -/
def witLog : List LogEvent :=
  [⟨some "compose-hash".toList, some (replay_app_compose witManifest), some 3⟩]

def witTcb : TcbInfo := ⟨witLog, witManifest⟩

/-- The raw register-3 value obtained by replaying `witLog`. -/
def witRt3Bytes : List Nat :=
  match replayGo 3 zeros48 witLog with
  | Except.ok d => d
  | Except.error _ => []

def witRt3Hex : List Char := encodeHex witRt3Bytes

example : replay_rtmr witLog 3 = Except.ok witRt3Hex := by decide

example : verify_codehash witTcb witRt3Hex = Except.ok (h64a, h64b) := by decide

/-- Witness for C5: on the concrete well-formed manifest the
extraction succeeds with exactly two image declarations. -/
theorem verify_codehash_structure_witness :
    countOccs (witManifest.filter (fun c => ¬ rustIsWhitespace c))
      "\\nimage:".toList = 2 ∧
    (∃ r1 r2 l3 r4,
      splitOnce (witManifest.filter (fun c => ¬ rustIsWhitespace c))
        "#shade-agent-api-image".toList = some r1 ∧
      splitOnce r1.2 "\\nimage:".toList = some r2 ∧
      splitOnce r2.2 "\\n".toList = some l3 ∧
      splitOnce l3.1 "@sha256:".toList = some r4 ∧
      64 ≤ r4.2.length ∧ (h64a, h64b).1 = r4.2.take 64) := by
  have h := verify_codehash_structure witTcb witRt3Hex (h64a, h64b) (by decide)
  exact ⟨h.1, h.2.1⟩

end PriceOracle

namespace PriceOracle

/-! ## Concrete environments and states for witnesses -/

/-- A concrete EMA blend (the spec leaves the formula open): jump to
the new median. -/
def dummyRecompute : Ema → Price → Nat → Ema :=
  fun e p t => { e with price := some p, timestamp := t }

/-- A verifier that rejects every quote. -/
def noVerify : List Nat → QuoteCollateralV3 → Nat → Option QvResult :=
  fun _ _ _ => none

def aliceId : AccountId := "alice".toList

def envA : Env :=
  { block_timestamp := 10 ^ 15, predecessor_account_id := aliceId,
    account_balance := 10 ^ 26, account_locked_balance := 0,
    storage_byte_cost := 0, storage_usage := 0,
    recompute := dummyRecompute, verify := noVerify }

/-- The freshly initialized contract (lib.rs `init`), with no oracles. -/
def stEmpty : Contract :=
  { oracles := [], assets := [], recency_duration_sec := 3600,
    owner_id := [], near_claim_amount := 10 ^ 24,
    approved_codehashes := [], worker_by_account_id := [] }

/-- A registered oracle holding the approved app-image codehash. -/
def oracleA : Oracle :=
  { last_report := 0, price_reports := 0, last_near_claim := 0,
    codehash := some h64b, checksum := some "ck".toList }

/-- A contract with one registered oracle, one configured asset and the
app-image codehash approved. -/
def stA : Contract :=
  { oracles := [(aliceId, oracleA)],
    assets := [("u".toList, { reports := [], emas := [] })],
    recency_duration_sec := 3600, owner_id := [],
    near_claim_amount := 10 ^ 24,
    approved_codehashes := [h64a, h64b],
    worker_by_account_id := [] }

/-- One well-formed price pair. -/
def apU : AssetPrice := { asset_id := "u".toList, price := ⟨100, 2⟩ }

example :
    (report_prices envA stA [apU] none).toOption.isSome = true := by decide

/-- C1: a price report is accepted only when the caller has a persisted
Oracle record whose `codehash` is `Some` and currently approved; a
missing record, a `None` codehash, or a codehash outside the approved
set (for example after an administrative revocation, even though the
Oracle record still exists) each make the entire call fail with no
state returned. -/
theorem report_prices_gate (env : Env) (st : Contract) (prices : List AssetPrice)
    (claim_near : Option Bool) :
    (∀ out, report_prices env st prices claim_near = Except.ok out →
      ∃ o ch, internal_get_oracle st env.predecessor_account_id = some o ∧
        o.codehash = some ch ∧ ch ∈ st.approved_codehashes) ∧
    (internal_get_oracle st env.predecessor_account_id = none →
      ∃ e, report_prices env st prices claim_near = Except.error e) ∧
    (∀ o, internal_get_oracle st env.predecessor_account_id = some o →
      o.codehash = none →
      ∃ e, report_prices env st prices claim_near = Except.error e) ∧
    (∀ o ch, internal_get_oracle st env.predecessor_account_id = some o →
      o.codehash = some ch → ch ∉ st.approved_codehashes →
      ∃ e, report_prices env st prices claim_near = Except.error e) := by
  by_cases hpe : prices.isEmpty
  · refine ⟨?_, ?_, ?_, ?_⟩
    · intro out hout
      simp [report_prices, hpe] at hout
    · intro _
      exact ⟨"prices must not be empty", by simp [report_prices, hpe]⟩
    · intro _ _ _
      exact ⟨"prices must not be empty", by simp [report_prices, hpe]⟩
    · intro _ _ _ _ _
      exact ⟨"prices must not be empty", by simp [report_prices, hpe]⟩
  · cases hlk : internal_get_oracle st env.predecessor_account_id with
    | none =>
      refine ⟨?_, ?_, ?_, ?_⟩
      · intro out hout
        simp [report_prices, hpe, hlk, optExcept] at hout
      · intro _
        exact ⟨"Not an oracle", by simp [report_prices, hpe, hlk, optExcept]⟩
      · intro o ho
        exact absurd ho (by simp)
      · intro o ch ho
        exact absurd ho (by simp)
    | some o =>
      cases hch : o.codehash with
      | none =>
        refine ⟨?_, ?_, ?_, ?_⟩
        · intro out hout
          simp [report_prices, hpe, hlk, hch, require_approved_codehash,
            optExcept] at hout
        · intro hn
          exact absurd hn (by simp)
        · intro o' ho' hch'
          exact ⟨"Oracle must have approved codehash to report prices",
            by simp [report_prices, hpe, hlk, hch, require_approved_codehash,
              optExcept]⟩
        · intro o' ch' ho' hch' hmem'
          injection ho' with ho'
          rw [← ho', hch] at hch'
          exact absurd hch' (by simp)
      | some ch =>
        by_cases hmem : ch ∈ st.approved_codehashes
        · refine ⟨?_, ?_, ?_, ?_⟩
          · intro out _
            exact ⟨o, ch, rfl, hch, hmem⟩
          · intro hn
            exact absurd hn (by simp)
          · intro o' ho' hch'
            injection ho' with ho'
            rw [← ho', hch] at hch'
            exact absurd hch' (by simp)
          · intro o' ch' ho' hch' hmem'
            injection ho' with ho'
            rw [← ho', hch] at hch'
            injection hch' with hch'
            rw [← hch'] at hmem'
            exact absurd hmem hmem'
        · refine ⟨?_, ?_, ?_, ?_⟩
          · intro out hout
            simp [report_prices, hpe, hlk, hch, require_approved_codehash,
              optExcept, hmem] at hout
          · intro hn
            exact absurd hn (by simp)
          · intro o' ho' hch'
            injection ho' with ho'
            rw [← ho', hch] at hch'
            exact absurd hch' (by simp)
          · intro o' ch' ho' hch' hmem'
            exact ⟨"codehash is not approved",
              by simp [report_prices, hpe, hlk, hch, require_approved_codehash,
                optExcept, hmem]⟩

/-- Witness for C1: on the freshly initialized contract (no Oracle
record for the caller) a report is rejected. -/
theorem report_prices_gate_witness :
    ∃ e, report_prices envA stEmpty [apU] none = Except.error e :=
  (report_prices_gate envA stEmpty [apU] none).2.1 (by decide)

end PriceOracle

namespace PriceOracle

/-- C3: registration is one-shot per account: when the caller already
has an Oracle record the `register_agent` call always fails — either
at an earlier verification step or, when quote, collateral and
manifest are all valid, at the final existence check — and (second
conjunct) a call can only succeed for a caller with no Oracle record,
so a success never overwrites an existing record. -/
theorem register_agent_one_shot (env : Env) (st : Contract) (quote_hex : List Char)
    (collateral : QuoteCollateralV3) (checksum : List Char) (tcb_info : TcbInfo) :
    (∀ o, internal_get_oracle st env.predecessor_account_id = some o →
      ∃ e, register_agent env st quote_hex collateral checksum tcb_info =
        Except.error e) ∧
    (∀ out, register_agent env st quote_hex collateral checksum tcb_info =
        Except.ok out →
      internal_get_oracle st env.predecessor_account_id = none) := by
  have conj2 : ∀ out, register_agent env st quote_hex collateral checksum tcb_info =
      Except.ok out →
      internal_get_oracle st env.predecessor_account_id = none := by
    intro out hout
    cases hlk : internal_get_oracle st env.predecessor_account_id with
    | none => rfl
    | some o =>
      exfalso
      cases hq : decodeHex quote_hex with
      | none => simp [register_agent, hq, optExcept] at hout
      | some quote =>
        cases hv : env.verify quote collateral (env.block_timestamp / 1000000000) with
        | none => simp [register_agent, hq, hv, optExcept] at hout
        | some result =>
          cases ht : result.report.as_td10 with
          | none => simp [register_agent, hq, hv, ht, optExcept] at hout
          | some report =>
            by_cases hp : env.predecessor_account_id = report.report_data
            · cases hvc : verify_codehash tcb_info (encodeHex report.rt_mr3) with
              | error msg =>
                simp [register_agent, hq, hv, ht, hp, hvc, optExcept] at hout
              | ok images =>
                by_cases h1 : images.1 ∈ st.approved_codehashes
                · by_cases h2 : images.2 ∈ st.approved_codehashes
                  · rw [hp] at hlk
                    simp [register_agent, hq, hv, ht, hp, hvc, h1, h2, hlk,
                      optExcept] at hout
                  · simp [register_agent, hq, hv, ht, hp, hvc, h1, h2,
                      optExcept] at hout
                · simp [register_agent, hq, hv, ht, hp, hvc, h1,
                    optExcept] at hout
            · simp [register_agent, hq, hv, ht, hp, optExcept] at hout
  refine ⟨?_, conj2⟩
  intro o hlk
  cases hreg : register_agent env st quote_hex collateral checksum tcb_info with
  | ok out =>
    rw [conj2 out hreg] at hlk
    exact absurd hlk (by simp)
  | error e => exact ⟨e, rfl⟩

/-- A contract state in which Alice is already registered but nothing
is approved. -/
def stRegistered : Contract :=
  { stEmpty with oracles := [(aliceId, oracleA)] }

def collateral0 : QuoteCollateralV3 := ⟨[], [], [], [], [], []⟩

/-- Witness for C3: with Alice already registered, a second
registration attempt (here with a failing verifier) is rejected. -/
theorem register_agent_one_shot_witness :
    ∃ e, register_agent envA stRegistered [] collateral0 "ck".toList witTcb =
      Except.error e :=
  (register_agent_one_shot envA stRegistered [] collateral0 "ck".toList witTcb).1
    oracleA (by decide)

end PriceOracle

namespace PriceOracle

/-- The Oracle record `register_agent` persists on success. -/
def mkRegOracle (codehash checksum : List Char) : Oracle :=
  { last_report := 0, price_reports := 0, last_near_claim := 0,
    codehash := some codehash, checksum := some checksum }

theorem lookupA_insertA {α : Type} (m : List (List Char × α)) (k : List Char) (v : α) :
    lookupA (insertA m k v) k = some v := by
  induction m with
  | nil => simp [insertA, lookupA]
  | cons p rest ih =>
    by_cases hk : p.1 = k
    · simp [insertA, lookupA, hk]
    · simp only [insertA, lookupA]
      rw [if_neg hk, lookupA, if_neg hk]
      exact ih

/-- C7 (amended): a successful `register_agent` call records the
attested identity in the account's **Oracle** record — `codehash` is
the extracted application-image digest and `checksum` the supplied
string — while the `Worker` map (`worker_by_account_id`) is left
untouched, so `get_agent` still fails for the account unless a Worker
entry existed beforehand. -/
theorem register_agent_stores_oracle (env : Env) (st : Contract)
    (quote_hex : List Char) (collateral : QuoteCollateralV3) (checksum : List Char)
    (tcb_info : TcbInfo) (out : Contract × Bool)
    (h : register_agent env st quote_hex collateral checksum tcb_info =
      Except.ok out) :
    ∃ quote result report images,
      decodeHex quote_hex = some quote ∧
      env.verify quote collateral (env.block_timestamp / 1000000000) = some result ∧
      QvReport.as_td10 result.report = some report ∧
      env.predecessor_account_id = report.report_data ∧
      verify_codehash tcb_info (encodeHex report.rt_mr3) = Except.ok images ∧
      images.2 ∈ st.approved_codehashes ∧
      out.1 = internal_set_oracle st env.predecessor_account_id
        (mkRegOracle images.2 checksum) ∧
      internal_get_oracle out.1 env.predecessor_account_id =
        some (mkRegOracle images.2 checksum) ∧
      out.1.worker_by_account_id = st.worker_by_account_id ∧
      (lookupA st.worker_by_account_id env.predecessor_account_id = none →
        get_agent out.1 env.predecessor_account_id =
          Except.error "no worker found") := by
  unfold register_agent at h
  cases hq : decodeHex quote_hex with
  | none => rw [hq] at h; simp [optExcept] at h
  | some quote =>
    rw [hq] at h
    simp only [optExcept, exceptOkBind] at h
    cases hv : env.verify quote collateral (env.block_timestamp / 1000000000) with
    | none => rw [hv] at h; simp [optExcept] at h
    | some result =>
      rw [hv] at h
      simp only [optExcept, exceptOkBind] at h
      cases ht : QvReport.as_td10 result.report with
      | none => rw [ht] at h; simp [optExcept] at h
      | some report =>
        rw [ht] at h
        simp only [optExcept, exceptOkBind] at h
        by_cases hp : env.predecessor_account_id ≠ report.report_data
        · rw [if_pos hp] at h; exact absurd h (by simp)
        · rw [if_neg hp] at h
          have hpeq : env.predecessor_account_id = report.report_data :=
            Decidable.not_not.mp hp
          cases hvc : verify_codehash tcb_info (encodeHex report.rt_mr3) with
          | error msg => rw [hvc] at h; simp [optExcept] at h
          | ok images =>
            rw [hvc] at h
            simp only [optExcept, exceptOkBind] at h
            by_cases h1 : images.1 ∉ st.approved_codehashes
            · rw [if_pos h1] at h; exact absurd h (by simp)
            · rw [if_neg h1] at h
              by_cases h2 : images.2 ∉ st.approved_codehashes
              · rw [if_pos h2] at h; exact absurd h (by simp)
              · rw [if_neg h2] at h
                by_cases hex : (internal_get_oracle st
                    env.predecessor_account_id).isSome
                · rw [if_pos hex] at h; exact absurd h (by simp)
                · rw [if_neg hex] at h
                  injection h with h
                  refine ⟨quote, result, report, images, rfl, hv, ht, hpeq,
                    hvc, Decidable.not_not.mp h2, ?_, ?_, ?_, ?_⟩
                  · rw [← h]
                    rfl
                  · rw [← h]
                    exact lookupA_insertA st.oracles env.predecessor_account_id _
                  · rw [← h]
                    rfl
                  · intro hnone
                    have hw : out.1.worker_by_account_id =
                        st.worker_by_account_id := by
                      rw [← h]
                      rfl
                    unfold get_agent
                    rw [hw, hnone]
                    rfl

end PriceOracle

namespace PriceOracle

/-- A TDX report body bound to Alice with the correctly replayed
register-3 value for `witLog`. -/
def witReport : TD10ReportBody := ⟨aliceId, witRt3Bytes⟩

/-- A verifier accepting every quote with the report `witReport`. -/
def okVerify : List Nat → QuoteCollateralV3 → Nat → Option QvResult :=
  fun _ _ _ => some ⟨QvReport.td10 witReport⟩

def env7 : Env := { envA with verify := okVerify }

/-- The empty contract with the two witness codehashes approved. -/
def st7 : Contract := { stEmpty with approved_codehashes := [h64a, h64b] }

/-- C7 counterexample: a fully successful `register_agent` call by
Alice (valid quote, collateral and manifest, digests approved) leaves
the Worker map empty — there is no entry `{checksum, codehash}` for
Alice — and `get_agent` for Alice fails instead of returning the
attested identity, which is stored on the Oracle record instead. -/
theorem register_agent_no_worker_entry :
    register_agent env7 st7 [] collateral0 "ck".toList witTcb =
      Except.ok ({ st7 with oracles := [(aliceId, oracleA)] }, true) ∧
    ({ st7 with oracles := [(aliceId, oracleA)] } : Contract).worker_by_account_id
      = [] ∧
    get_agent { st7 with oracles := [(aliceId, oracleA)] } aliceId =
      Except.error "no worker found" := by
  refine ⟨by decide, by decide, by decide⟩

/-- Witness for C7's amended theorem: the concrete successful
registration stores Alice's Oracle record and leaves the Worker map
as it was. -/
theorem register_agent_stores_oracle_witness :
    ∃ quote result report images,
      decodeHex ([] : List Char) = some quote ∧
      env7.verify quote collateral0 (env7.block_timestamp / 1000000000) =
        some result ∧
      QvReport.as_td10 result.report = some report ∧
      env7.predecessor_account_id = report.report_data ∧
      verify_codehash witTcb (encodeHex report.rt_mr3) = Except.ok images ∧
      images.2 ∈ st7.approved_codehashes ∧
      ({ st7 with oracles := [(aliceId, oracleA)] }, true).1 =
        internal_set_oracle st7 env7.predecessor_account_id
          (mkRegOracle images.2 "ck".toList) ∧
      internal_get_oracle ({ st7 with oracles := [(aliceId, oracleA)] }, true).1
        env7.predecessor_account_id = some (mkRegOracle images.2 "ck".toList) ∧
      ({ st7 with oracles := [(aliceId, oracleA)] }, true).1.worker_by_account_id
        = st7.worker_by_account_id ∧
      (lookupA st7.worker_by_account_id env7.predecessor_account_id = none →
        get_agent ({ st7 with oracles := [(aliceId, oracleA)] }, true).1
          env7.predecessor_account_id = Except.error "no worker found") :=
  register_agent_stores_oracle env7 st7 [] collateral0 "ck".toList witTcb
    ({ st7 with oracles := [(aliceId, oracleA)] }, true) (by decide)

end PriceOracle

namespace PriceOracle

/-- The failing environment for the reward-claim balance check: no
spendable balance at all, 5 NEAR locked (staked), no storage use. -/
def envC : Env :=
  { block_timestamp := 10 ^ 15, predecessor_account_id := aliceId,
    account_balance := 0, account_locked_balance := 5 * 10 ^ 24,
    storage_byte_cost := 0, storage_usage := 0,
    recompute := dummyRecompute, verify := noVerify }

/-- C6: at `envC`/`stA` the reward claim is paid although the
spendable balance excluding the locked balance (`total − locked −
storage = account_balance − storage = 0`) does not exceed the claim
amount plus the safety margin: the code's `liquid_balance`
(lib.rs:229-230) *adds* the locked balance instead of excluding it. -/
theorem report_prices_claim_counts_locked :
    (report_prices envC stA [apU] (some true)).map (fun out => out.2) =
      Except.ok [(aliceId, 10 ^ 24)] ∧
    envC.account_balance + envC.account_locked_balance -
        envC.storage_byte_cost * envC.storage_usage >
      stA.near_claim_amount + SAFETY_MARGIN_NEAR_CLAIM ∧
    ¬ (envC.account_balance - envC.storage_byte_cost * envC.storage_usage >
      stA.near_claim_amount + SAFETY_MARGIN_NEAR_CLAIM) := by
  refine ⟨by decide, by decide, by decide⟩

end PriceOracle

namespace PriceOracle

/-! ## Helper lemmas for the quorum-gated median -/

theorem bindExcept_ok {ε α β : Type} {x : Except ε α} {f : α → Except ε β} {b : β}
    (h : (x >>= f) = Except.ok b) : ∃ a, x = Except.ok a ∧ f a = Except.ok b := by
  cases x with
  | ok a => exact ⟨a, rfl, h⟩
  | error e => simp at h

theorem insertA_length_of_mem {α : Type} (m : List (List Char × α)) (k : List Char)
    (v v' : α) (h : lookupA m k = some v') :
    (insertA m k v).length = m.length := by
  induction m with
  | nil => simp [lookupA] at h
  | cons p rest ih =>
    by_cases hk : p.1 = k
    · simp [insertA, hk]
    · rw [lookupA, if_neg hk] at h
      simp only [insertA]
      rw [if_neg hk]
      simp [ih h]

theorem insertSorted_length (r : Report) (l : List Report) :
    (insertSorted r l).length = l.length + 1 := by
  induction l with
  | nil => rfl
  | cons x tl ih =>
    unfold insertSorted
    by_cases hc : priceCmp r.price x.price = Ordering.gt
    · rw [if_pos hc]
      simp [ih]
    · rw [if_neg hc]
      simp

theorem sortByPrice_length (l : List Report) :
    (sortByPrice l).length = l.length := by
  induction l with
  | nil => rfl
  | cons x tl ih =>
    show (insertSorted x (sortByPrice tl)).length = tl.length + 1
    rw [insertSorted_length, ih]

end PriceOracle

namespace PriceOracle

/-- C10: (a) the (spec-modelled) median is produced exactly when the
number of reports passing the recency cutoff reaches the threshold;
(b) the per-asset ingestion step leaves every EMA unchanged when the
median with threshold `max 1 ((n + 1) / 2)` is not produced, and
recomputes every EMA from it when it is; (c) an accepted single-pair
`report_prices` call updates the asset exactly through that step, with
`n` the count of currently registered oracles; (d) `get_price_data`
answers a plain asset id through the median with the same
`max 1 ((oracles.len + 1) / 2)` threshold. -/
theorem median_quorum_gate :
    (∀ (a : Asset) (cut min : Nat), 1 ≤ min →
      ((a.median_price cut min).isSome = true ↔
        min ≤ (a.reports.filter (fun r => cut ≤ r.timestamp)).length)) ∧
    (∀ (rec : Ema → Price → Nat → Ema) (rds n : Nat) (oid : AccountId)
        (ts : Nat) (a : Asset) (p : Price),
      (((a.remove_report oid).add_report ⟨oid, ts, p⟩).median_price
          (ts - to_nano rds) (max 1 ((n + 1) / 2)) = none →
        (ingestPrice rec rds n oid ts a p).emas = a.emas) ∧
      (∀ m, ((a.remove_report oid).add_report ⟨oid, ts, p⟩).median_price
          (ts - to_nano rds) (max 1 ((n + 1) / 2)) = some m →
        a.emas ≠ [] →
        (ingestPrice rec rds n oid ts a p).emas =
          a.emas.map (fun e => rec e m ts))) ∧
    (∀ (env : Env) (st : Contract) (aid : AssetId) (p : Price)
        (cn : Option Bool) (out : Contract × List (AccountId × Nat))
        (asset : Asset),
      report_prices env st [⟨aid, p⟩] cn = Except.ok out →
      internal_get_asset st aid = some asset →
      internal_get_asset out.1 aid =
        some (ingestPrice env.recompute st.recency_duration_sec
          st.oracles.length env.predecessor_account_id env.block_timestamp
          asset p)) ∧
    (∀ (env : Env) (st : Contract) (aid : AssetId) (pd : PriceData),
      splitOnce aid ['#'] = none →
      get_price_data env st (some [aid]) = Except.ok pd →
      pd.prices = [⟨aid, (internal_get_asset st aid).bind (fun a =>
        a.median_price (env.block_timestamp - to_nano st.recency_duration_sec)
          (max 1 ((st.oracles.length + 1) / 2)))⟩]) := by
  refine ⟨?_, ?_, ?_, ?_⟩
  · -- (a) median iff quorum
    intro a cut min hmin
    unfold Asset.median_price
    dsimp only
    by_cases hlen : (a.reports.filter (fun r => cut ≤ r.timestamp)).length < min
    · rw [if_pos hlen]
      constructor
      · intro hc
        exact absurd hc (by simp)
      · intro hc
        omega
    · rw [if_neg hlen]
      have hle : min ≤ (a.reports.filter (fun r => cut ≤ r.timestamp)).length :=
        Nat.le_of_not_lt hlen
      have hidx : (a.reports.filter (fun r => cut ≤ r.timestamp)).length / 2 <
          (sortByPrice (a.reports.filter (fun r => cut ≤ r.timestamp))).length := by
        rw [sortByPrice_length]
        omega
      rw [List.get?_eq_get hidx]
      constructor
      · intro _
        exact hle
      · intro _
        simp
  · -- (b) EMAs unchanged without a median, recomputed with one
    intro rec rds n oid ts a p
    have hemas : ((a.remove_report oid).add_report ⟨oid, ts, p⟩).emas = a.emas := rfl
    constructor
    · intro hnone
      unfold ingestPrice
      by_cases he : (((a.remove_report oid).add_report ⟨oid, ts, p⟩).emas).isEmpty
      · rw [if_pos he]
        exact hemas
      · rw [if_neg he]
        dsimp only
        rw [hnone]
        rfl
    · intro m hsome hne
      unfold ingestPrice
      have he : ¬ ((((a.remove_report oid).add_report ⟨oid, ts, p⟩).emas).isEmpty
          = true) := by
        rw [hemas]
        simpa [List.isEmpty_iff] using hne
      rw [if_neg he]
      dsimp only
      rw [hsome]
      rfl
  · -- (c) report_prices applies the step with the live oracle count
    intro env st aid p cn out asset hout hasset
    unfold report_prices at hout
    rw [if_neg (by simp : ¬ (([⟨aid, p⟩] : List AssetPrice).isEmpty = true))] at hout
    dsimp only at hout
    cases hlk : internal_get_oracle st env.predecessor_account_id with
    | none => rw [hlk] at hout; simp [optExcept] at hout
    | some o =>
      rw [hlk] at hout
      simp only [optExcept, exceptOkBind] at hout
      unfold require_approved_codehash at hout
      cases hch : o.codehash with
      | none => rw [hch] at hout; simp [optExcept] at hout
      | some ch =>
        rw [hch] at hout
        simp only [optExcept, exceptOkBind] at hout
        by_cases hmem : ch ∈ st.approved_codehashes
        · rw [if_pos hmem] at hout
          simp only [exceptOkBind] at hout
          obtain ⟨cres, hcs, hout⟩ := bindExcept_ok hout
          obtain ⟨o2, tr⟩ := cres
          dsimp only at hout
          obtain ⟨st2, hloop, hout⟩ := bindExcept_ok hout
          injection hout with hout
          unfold reportLoop at hloop
          dsimp only at hloop
          by_cases hval : p.isValid
          · rw [if_neg (by simpa using hval)] at hloop
            rw [show internal_get_asset
                (internal_set_oracle st env.predecessor_account_id o2) aid =
                some asset from hasset] at hloop
            unfold reportLoop at hloop
            injection hloop with hloop
            have h2 : (internal_set_oracle st env.predecessor_account_id
                o2).oracles.length = st.oracles.length :=
              insertA_length_of_mem st.oracles env.predecessor_account_id o2 o hlk
            rw [← hout]
            dsimp only
            rw [← hloop, ← h2]
            exact lookupA_insertA _ aid _
          · rw [if_pos (by simpa using hval)] at hloop
            exact absurd hloop (by simp)
        · rw [if_neg hmem] at hout
          simp at hout
  · -- (d) get_price_data uses the same threshold
    intro env st aid pd hsplit hpd
    unfold get_price_data at hpd
    dsimp only at hpd
    obtain ⟨prs, hmap, hpd⟩ := bindExcept_ok hpd
    injection hpd with hpd
    obtain ⟨b1, hfa, hb⟩ := bindExcept_ok hmap
    dsimp only at hfa
    rw [hsplit] at hfa
    injection hfa with hfa
    injection hb with hb
    rw [← hpd]
    dsimp only
    rw [← hb, ← hfa]
    rfl

end PriceOracle

namespace PriceOracle

/-- A one-report asset used to evaluate the quorum condition. -/
def asset1 : Asset := { reports := [⟨aliceId, 10, ⟨100, 2⟩⟩], emas := [] }

/-- Witness for C10: with threshold 1 the concrete one-report asset
satisfies the quorum iff, evaluated at `cut = 0`. -/
theorem median_quorum_gate_witness :
    (asset1.median_price 0 1).isSome = true ↔
      1 ≤ (asset1.reports.filter (fun r => (0 : Nat) ≤ r.timestamp)).length :=
  median_quorum_gate.1 asset1 0 1 (by decide)

end PriceOracle
